import Mathlib

/-!
Shallow embedding of the TaskFlow task tracker (src/taskflow.py): the task
record, the `TaskManager` repository operations (`add_task`, `view_tasks`,
`edit_task`, `delete_task`, `mark_task_complete`), and the JSON storage
adapter (`save_tasks` / `load_tasks`), together with theorems settling the
specification's claims about them.

Modelling conventions:
- A Python task dict becomes the structure `Task`; `deadline` is
  `Option String` (`none` for JSON `null`).
- `TaskManager` state becomes `Manager`: the in-memory list `tasks`, the
  persisted file content `stored`, and `saveCount` counting calls to
  `save_tasks` (so "persists only on success" is observable).
- The console report of each mutating operation (`Task updated successfully`
  versus `Task ID not found`) becomes the two-valued `Report`.
- Python's `sorted(key=k)` is a stable sort; it is embedded as the stable
  insertion sort `sortedBy`, whose sortedness and stability are proved below.
- `edit_task(task_id, **kwargs)` takes the four keyword fields the caller
  supplies, each optional; Python filters out values that are `None`
  (`if v is not None`), so a present value — including the empty string —
  overwrites the field.
-/

namespace TaskFlow

/-- One task record, the six fields of the JSON objects in `tasks.json`. -/
structure Task where
  id : Nat
  description : String
  category : String
  priority : String
  deadline : Option String
  completed : Bool
deriving Repr, DecidableEq

/-- `priority_order = {"High": 0, "Medium": 1, "Low": 2}` and
`priority_order.get(x["priority"], 3)`: rank of a priority string,
with 3 for anything outside the known set. -/
def priorityRank (p : String) : Nat :=
  if p = "High" then 0 else if p = "Medium" then 1 else if p = "Low" then 2 else 3

/-- The deadline sort key `x["deadline"] or "9999-12-31"`: Python `or`
replaces both `None` and the empty string (the falsy values a deadline can
take) by the sentinel `"9999-12-31"`. -/
def deadlineKey (d : Option String) : String :=
  match d with
  | none => "9999-12-31"
  | some s => if s = "" then "9999-12-31" else s

/-- Insert `x` into `l` in front of the first element whose key is not
smaller: the building block of the stable insertion sort. -/
def sortedInsert {α κ : Type} [LinearOrder κ] (key : α → κ) (x : α) : List α → List α
  | [] => [x]
  | y :: ys => if key y < key x then y :: sortedInsert key x ys else x :: y :: ys

/-- Stable sort by `key`: the embedding of Python's stable `sorted(key=...)`.
Sortedness, stability and the permutation property are proved below, which is
all the source relies on. -/
def sortedBy {α κ : Type} [LinearOrder κ] (key : α → κ) : List α → List α
  | [] => []
  | x :: xs => sortedInsert key x (sortedBy key xs)

/-- `view_tasks` (lines 47–63): optional category filter (skipped when the
argument is falsy: `None` or the empty string), then an optional stable sort
by priority rank or by deadline key; the result is the list that is rendered. -/
def view_tasks (tasks : List Task) (filter_by : Option String) (sort_by : Option String) :
    List Task :=
  let ts := match filter_by with
    | none => tasks
    | some c => if c = "" then tasks else tasks.filter (fun t => decide (t.category = c))
  if sort_by = some "priority" then sortedBy (fun t => priorityRank t.priority) ts
  else if sort_by = some "deadline" then sortedBy (fun t => deadlineKey t.deadline) ts
  else ts

/-- The repository state: the in-memory list `self.tasks`, the content of the
backing file `tasks.json`, and the number of `save_tasks` calls made. -/
structure Manager where
  tasks : List Task
  stored : List Task
  saveCount : Nat
deriving Repr, DecidableEq

/-- `save_tasks`: rewrite the backing file from the in-memory list. -/
def save_tasks (m : Manager) : Manager :=
  { m with stored := m.tasks, saveCount := m.saveCount + 1 }

/-- What a mutating operation prints: the green success message or the red
`Task ID not found.` -/
inductive Report where
  | success
  | notFound
deriving Repr, DecidableEq

/-- `add_task` (lines 33–45): append a task with `id = len(self.tasks) + 1`,
`completed = False`, then save. -/
def add_task (m : Manager) (description category priority : String)
    (deadline : Option String) : Manager :=
  let task : Task :=
    { id := m.tasks.length + 1
      description := description
      category := category
      priority := priority
      deadline := deadline
      completed := false }
  save_tasks { m with tasks := m.tasks ++ [task] }

/-- The keyword arguments of `edit_task(task_id, description=..., category=...,
priority=..., deadline=...)` as the caller supplies them; `none` stands for a
Python `None` value, which `edit_task` filters out. -/
structure Patch where
  description : Option String
  category : Option String
  priority : Option String
  deadline : Option String
deriving Repr, DecidableEq

/-- `task.update({k: v for k, v in kwargs.items() if v is not None})`: every
field whose supplied value is not `None` overwrites the attribute — the empty
string is not `None`, so it overwrites too. -/
def applyPatch (t : Task) (p : Patch) : Task :=
  { t with
    description := p.description.getD t.description
    category := p.category.getD t.category
    priority := p.priority.getD t.priority
    deadline := match p.deadline with
      | some v => some v
      | none => t.deadline }

/-- The loop of `edit_task` (lines 87–92) over the task list: patch the first
task whose `id` matches and stop; `none` when no task matches. -/
def editList (ts : List Task) (task_id : Nat) (p : Patch) : Option (List Task) :=
  match ts with
  | [] => none
  | t :: rest =>
    if t.id = task_id then some (applyPatch t p :: rest)
    else (editList rest task_id p).map (t :: ·)

/-- `edit_task` (lines 85–93): on a match, update in place, save and report
success; otherwise report `Task ID not found.` without saving. -/
def edit_task (m : Manager) (task_id : Nat) (p : Patch) : Manager × Report :=
  match editList m.tasks task_id p with
  | some ts => (save_tasks { m with tasks := ts }, .success)
  | none => (m, .notFound)

/-- The loop of `mark_task_complete` (lines 110–115): set `completed = True`
on the first task whose `id` matches and stop; `none` when no task matches. -/
def completeList (ts : List Task) (task_id : Nat) : Option (List Task) :=
  match ts with
  | [] => none
  | t :: rest =>
    if t.id = task_id then some ({ t with completed := true } :: rest)
    else (completeList rest task_id).map (t :: ·)

/-- `mark_task_complete` (lines 108–116): on a match, set the flag, save and
report success; otherwise report `Task ID not found.` without saving. -/
def mark_task_complete (m : Manager) (task_id : Nat) : Manager × Report :=
  match completeList m.tasks task_id with
  | some ts => (save_tasks { m with tasks := ts }, .success)
  | none => (m, .notFound)

/-- The renumbering loop of `delete_task` (lines 101–102), carried out from
position `n`: `task["id"] = i + 1` for each index `i`. -/
def renumberFrom (n : Nat) : List Task → List Task
  | [] => []
  | t :: rest => { t with id := n } :: renumberFrom (n + 1) rest

/-- Reassign ids so they are the 1-based positions. -/
def renumber (ts : List Task) : List Task := renumberFrom 1 ts

/-- `delete_task` (lines 95–106): drop every task whose `id` equals
`task_id`, renumber all remaining tasks, save, and print the success message —
all unconditionally: there is no not-found branch. -/
def delete_task (m : Manager) (task_id : Nat) : Manager × Report :=
  let ts := renumber (m.tasks.filter (fun t => decide (t.id ≠ task_id)))
  (save_tasks { m with tasks := ts }, .success)

/-- The identifier invariant of the data model: the ids are exactly the
1-based positions 1..N in stored order. -/
def Contiguous (ts : List Task) : Prop :=
  ts.map (fun t => t.id) = List.range' 1 ts.length

instance : DecidablePred Contiguous := fun ts =>
  inferInstanceAs (Decidable (ts.map (fun t => t.id) = List.range' 1 ts.length))

/-- The mutating repository operations a session can issue on the task list
(`view_tasks` is read-only and has no effect on the state). -/
inductive Op where
  | add (description category priority : String) (deadline : Option String)
  | delete (task_id : Nat)
deriving Repr, DecidableEq

/-- Run one operation on the repository state. -/
def applyOp (m : Manager) : Op → Manager
  | .add d c p dl => add_task m d c p dl
  | .delete task_id => (delete_task m task_id).1

/-- Run a sequence of operations. -/
def runOps (m : Manager) (ops : List Op) : Manager :=
  ops.foldl applyOp m

/-- The JSON values `json.dump` / `json.load` exchange with `tasks.json`. -/
inductive Json where
  | str (s : String)
  | num (n : Nat)
  | bool (b : Bool)
  | null
  | arr (xs : List Json)
  | obj (fields : List (String × Json))

/-- One task record as `json.dump` writes it: an object with the six field
names verbatim; an absent deadline serializes as `null`. -/
def taskToJson (t : Task) : Json :=
  .obj
    [ ("id", .num t.id)
    , ("description", .str t.description)
    , ("category", .str t.category)
    , ("priority", .str t.priority)
    , ("deadline", match t.deadline with | none => .null | some s => .str s)
    , ("completed", .bool t.completed) ]

/-- `save_tasks` as the storage adapter sees it: the JSON array written to
`tasks.json`, the tasks in stored order. -/
def tasksToJson (ts : List Task) : Json :=
  .arr (ts.map taskToJson)

/-- Look a field up in a JSON object's field list (first occurrence). -/
def jsonLookup (fields : List (String × Json)) (k : String) : Option Json :=
  match fields with
  | [] => none
  | (k', v) :: rest => if k' = k then some v else jsonLookup rest k

/-- Read one task record back from its JSON object, `none` if a field is
missing or of the wrong shape. -/
def jsonToTask (j : Json) : Option Task :=
  match j with
  | .obj fields =>
    match jsonLookup fields "id", jsonLookup fields "description",
        jsonLookup fields "category", jsonLookup fields "priority",
        jsonLookup fields "deadline", jsonLookup fields "completed" with
    | some (.num i), some (.str d), some (.str c), some (.str p),
        some dl, some (.bool b) =>
      match dl with
      | .null => some ⟨i, d, c, p, none, b⟩
      | .str s => some ⟨i, d, c, p, some s, b⟩
      | _ => none
    | _, _, _, _, _, _ => none
  | _ => none

/-- Read a list of task records element by element; `none` as soon as one
element fails. -/
def jsonToTaskList (xs : List Json) : Option (List Task) :=
  match xs with
  | [] => some []
  | j :: rest =>
    match jsonToTask j, jsonToTaskList rest with
    | some t, some ts => some (t :: ts)
    | _, _ => none

/-- `load_tasks` as the storage adapter sees it: read the task sequence back
from the JSON array in `tasks.json`. -/
def jsonToTasks (j : Json) : Option (List Task) :=
  match j with
  | .arr xs => jsonToTaskList xs
  | _ => none

/-- The field names of a serialized record, in file order. -/
def jsonKeys (j : Json) : List String :=
  match j with
  | .obj fields => fields.map (fun f => f.1)
  | _ => []

/-! ## Properties of the stable sort -/

theorem mem_sortedInsert {α κ : Type} [LinearOrder κ] (key : α → κ) (x : α)
    (l : List α) (a : α) : a ∈ sortedInsert key x l ↔ a = x ∨ a ∈ l := by
  induction l with
  | nil => simp [sortedInsert]
  | cons y ys ih =>
    by_cases h : key y < key x
    · simp only [sortedInsert, if_pos h, List.mem_cons, ih]
      tauto
    · simp only [sortedInsert, if_neg h, List.mem_cons]

theorem pairwise_sortedInsert {α κ : Type} [LinearOrder κ] (key : α → κ) (x : α)
    (l : List α) (hl : l.Pairwise (fun a b => key a ≤ key b)) :
    (sortedInsert key x l).Pairwise (fun a b => key a ≤ key b) := by
  induction l with
  | nil => simp [sortedInsert]
  | cons y ys ih =>
    rcases List.pairwise_cons.mp hl with ⟨hy, hys⟩
    by_cases h : key y < key x
    · simp only [sortedInsert, if_pos h]
      refine List.pairwise_cons.mpr ⟨?_, ih hys⟩
      intro a ha
      rcases (mem_sortedInsert key x ys a).mp ha with rfl | ha
      · exact le_of_lt h
      · exact hy a ha
    · simp only [sortedInsert, if_neg h]
      refine List.pairwise_cons.mpr ⟨?_, hl⟩
      intro a ha
      rcases List.mem_cons.mp ha with rfl | ha
      · exact not_lt.mp h
      · exact le_trans (not_lt.mp h) (hy a ha)

theorem pairwise_sortedBy {α κ : Type} [LinearOrder κ] (key : α → κ) (l : List α) :
    (sortedBy key l).Pairwise (fun a b => key a ≤ key b) := by
  induction l with
  | nil => exact List.Pairwise.nil
  | cons x xs ih => exact pairwise_sortedInsert key x _ ih

theorem sortedInsert_perm {α κ : Type} [LinearOrder κ] (key : α → κ) (x : α)
    (l : List α) : List.Perm (sortedInsert key x l) (x :: l) := by
  induction l with
  | nil => exact List.Perm.refl _
  | cons y ys ih =>
    by_cases h : key y < key x
    · simp only [sortedInsert, if_pos h]
      exact (List.Perm.cons y ih).trans (List.Perm.swap x y ys)
    · simp only [sortedInsert, if_neg h]
      exact List.Perm.refl _

theorem sortedBy_perm {α κ : Type} [LinearOrder κ] (key : α → κ) (l : List α) :
    List.Perm (sortedBy key l) l := by
  induction l with
  | nil => exact List.Perm.refl _
  | cons x xs ih => exact (sortedInsert_perm key x _).trans (List.Perm.cons x ih)

theorem sortedInsert_filter {α κ : Type} [LinearOrder κ] [DecidableEq κ]
    (key : α → κ) (x : α) (l : List α) (k : κ) :
    (sortedInsert key x l).filter (fun a => decide (key a = k))
      = if key x = k then x :: l.filter (fun a => decide (key a = k))
        else l.filter (fun a => decide (key a = k)) := by
  induction l with
  | nil =>
    by_cases hx : key x = k <;> simp [sortedInsert, List.filter, hx]
  | cons y ys ih =>
    by_cases h : key y < key x
    · have hne : key y ≠ key x := ne_of_lt h
      by_cases hx : key x = k
      · have hy : key y ≠ k := fun hk => hne (hk.trans hx.symm)
        simp only [sortedInsert, if_pos h, List.filter_cons, decide_eq_true_eq]
        simp [hy, hx, ih]
      · simp only [sortedInsert, if_pos h, List.filter_cons, decide_eq_true_eq]
        by_cases hy : key y = k <;> simp [hy, hx, ih]
    · simp only [sortedInsert, if_neg h]
      by_cases hx : key x = k <;> simp [List.filter_cons, hx]

/-- Stability of `sortedBy`: for every key value `k`, the subsequence of
elements whose key is `k` is exactly the one of the input — ties preserve
their prior relative order. -/
theorem sortedBy_filter {α κ : Type} [LinearOrder κ] [DecidableEq κ]
    (key : α → κ) (l : List α) (k : κ) :
    (sortedBy key l).filter (fun a => decide (key a = k))
      = l.filter (fun a => decide (key a = k)) := by
  induction l with
  | nil => rfl
  | cons x xs ih =>
    by_cases hx : key x = k
    · simp only [sortedBy, sortedInsert_filter, if_pos hx, ih, List.filter_cons]
      simp [hx]
    · simp only [sortedBy, sortedInsert_filter, if_neg hx, ih, List.filter_cons]
      simp [hx]

/-! ## Properties of renumbering -/

theorem renumberFrom_map_id (n : Nat) (ts : List Task) :
    (renumberFrom n ts).map (fun t => t.id) = List.range' n ts.length := by
  induction ts generalizing n with
  | nil => rfl
  | cons t rest ih =>
    simp only [renumberFrom, List.map_cons, List.length_cons, ih]
    rfl

theorem renumberFrom_length (n : Nat) (ts : List Task) :
    (renumberFrom n ts).length = ts.length := by
  induction ts generalizing n with
  | nil => rfl
  | cons t rest ih => simp [renumberFrom, ih]

theorem contiguous_renumber (ts : List Task) : Contiguous (renumber ts) := by
  show (renumberFrom 1 ts).map (fun t => t.id)
      = List.range' 1 (renumberFrom 1 ts).length
  rw [renumberFrom_map_id, renumberFrom_length]

theorem renumberFrom_eq_self (n : Nat) (ts : List Task)
    (h : ts.map (fun t => t.id) = List.range' n ts.length) :
    renumberFrom n ts = ts := by
  induction ts generalizing n with
  | nil => rfl
  | cons t rest ih =>
    have h' : t.id :: rest.map (fun t => t.id)
        = n :: List.range' (n + 1) rest.length := h
    rw [List.cons.injEq] at h'
    obtain ⟨h1, h2⟩ := h'
    simp only [renumberFrom, ih (n + 1) h2]
    cases t with
    | mk i d c p dl b =>
      subst h1
      rfl

theorem renumber_eq_self (ts : List Task) (h : Contiguous ts) : renumber ts = ts :=
  renumberFrom_eq_self 1 ts h

theorem contiguous_append_new (ts : List Task) (t : Task) (h : Contiguous ts)
    (ht : t.id = ts.length + 1) : Contiguous (ts ++ [t]) := by
  show (ts ++ [t]).map (fun t => t.id) = List.range' 1 (ts ++ [t]).length
  simp only [List.map_append, List.length_append, List.map_cons, List.map_nil,
    List.length_cons, List.length_nil]
  rw [h, ht, List.range'_1_concat, Nat.add_comm 1 ts.length]

/-! ## First-match characterization of the edit and complete loops -/

theorem editList_eq_none_iff (ts : List Task) (task_id : Nat) (p : Patch) :
    editList ts task_id p = none ↔ ∀ t ∈ ts, t.id ≠ task_id := by
  induction ts with
  | nil => simp [editList]
  | cons t rest ih =>
    by_cases h : t.id = task_id
    · simp [editList, h, List.forall_mem_cons]
    · simp [editList, h, List.forall_mem_cons, Option.map_eq_none', ih]

theorem completeList_eq_none_iff (ts : List Task) (task_id : Nat) :
    completeList ts task_id = none ↔ ∀ t ∈ ts, t.id ≠ task_id := by
  induction ts with
  | nil => simp [completeList]
  | cons t rest ih =>
    by_cases h : t.id = task_id
    · simp [completeList, h, List.forall_mem_cons]
    · simp [completeList, h, List.forall_mem_cons, Option.map_eq_none', ih]

theorem editList_append (pre : List Task) (t : Task) (post : List Task)
    (task_id : Nat) (p : Patch) (hpre : ∀ u ∈ pre, u.id ≠ task_id)
    (ht : t.id = task_id) :
    editList (pre ++ t :: post) task_id p = some (pre ++ applyPatch t p :: post) := by
  induction pre with
  | nil => simp [editList, ht]
  | cons u us ih =>
    have hu : u.id ≠ task_id := hpre u (List.mem_cons_self u us)
    have hus : ∀ v ∈ us, v.id ≠ task_id := fun v hv => hpre v (List.mem_cons_of_mem u hv)
    simp [editList, hu, ih hus]

theorem completeList_append (pre : List Task) (t : Task) (post : List Task)
    (task_id : Nat) (hpre : ∀ u ∈ pre, u.id ≠ task_id) (ht : t.id = task_id) :
    completeList (pre ++ t :: post) task_id
      = some (pre ++ { t with completed := true } :: post) := by
  induction pre with
  | nil => simp [completeList, ht]
  | cons u us ih =>
    have hu : u.id ≠ task_id := hpre u (List.mem_cons_self u us)
    have hus : ∀ v ∈ us, v.id ≠ task_id := fun v hv => hpre v (List.mem_cons_of_mem u hv)
    simp [completeList, hu, ih hus]

/-- Decompose a list at the first task whose `id` matches, given that some
task matches. -/
theorem first_match_decomp (ts : List Task) (task_id : Nat)
    (h : ∃ t ∈ ts, t.id = task_id) :
    ∃ pre t post, ts = pre ++ t :: post ∧ (∀ u ∈ pre, u.id ≠ task_id)
      ∧ t.id = task_id := by
  induction ts with
  | nil => simp at h
  | cons u us ih =>
    by_cases hu : u.id = task_id
    · exact ⟨[], u, us, rfl, by simp, hu⟩
    · obtain ⟨t, ht, htid⟩ := h
      rcases List.mem_cons.mp ht with rfl | ht'
      · exact absurd htid hu
      · obtain ⟨pre, t', post, heq, hpre, ht'id⟩ := ih ⟨t, ht', htid⟩
        refine ⟨u :: pre, t', post, by rw [heq]; rfl, ?_, ht'id⟩
        intro v hv
        rcases List.mem_cons.mp hv with rfl | hv'
        · exact hu
        · exact hpre v hv'

/-- `view_tasks` as a transformation of the repository state: the method reads
`self.tasks`, builds the list it renders, assigns nothing back to `self.tasks`
and never calls `save_tasks`; the pair is (state after the call, rendered
list). -/
def view_tasks_call (m : Manager) (filter_by sort_by : Option String) :
    Manager × List Task :=
  (m, view_tasks m.tasks filter_by sort_by)

/-! ## Concrete records for counterexamples and witnesses -/

/-- A sample task record. -/
def exTask : Task :=
  { id := 1, description := "Buy milk", category := "Personal", priority := "Low",
    deadline := none, completed := false }

/-- The keyword arguments of the call
`edit(id, description="", category=None, priority=None, deadline=None)`. -/
def emptyPatch : Patch :=
  { description := some "", category := none, priority := none, deadline := none }

/-! ## The claims -/

/-- C1: the spec says `edit(id, description="", category=None, priority=None,
deadline=None)` leaves all fields unchanged — that empty or absent inputs are
per-field no-ops. The code filters out only `None` values (`if v is not
None`), so the empty string *does* overwrite: on the sample task, that very
call replaces the description `"Buy milk"` by `""`. This contradicts the
code's own prompt `"New Task Description (leave empty to keep current)"`. -/
theorem edit_empty_description_overwrites :
    editList [exTask] 1 emptyPatch = some [{ exTask with description := "" }]
    ∧ ({ exTask with description := "" }).description ≠ exTask.description
    ∧ (edit_task ⟨[exTask], [exTask], 0⟩ 1 emptyPatch).1.tasks
        = [{ exTask with description := "" }]
    ∧ emptyPatch.category = none ∧ emptyPatch.priority = none
    ∧ emptyPatch.deadline = none := by
  refine ⟨rfl, by decide, rfl, rfl, rfl, rfl⟩

/-- C2 counterexample: the claim says `delete` with an absent identifier
reports a not-found failure. The code has no not-found branch: on a one-task
collection, deleting the absent identifier 5 reports success. -/
theorem delete_missing_reports_success :
    (delete_task ⟨[exTask], [exTask], 0⟩ 5).2 = Report.success
    ∧ Report.success ≠ Report.notFound := by
  exact ⟨rfl, by decide⟩

/-- C2 (amended): `delete` with an identifier matching no task leaves the
collection's content unchanged when the identifier invariant holds, and the
session continues — but it reports success rather than not-found, and it
unconditionally runs the renumbering pass and persists. -/
theorem delete_missing_id (m : Manager) (task_id : Nat)
    (habs : ∀ t ∈ m.tasks, t.id ≠ task_id) (hc : Contiguous m.tasks) :
    (delete_task m task_id).1.tasks = m.tasks
    ∧ (delete_task m task_id).2 = Report.success
    ∧ (delete_task m task_id).1.stored = m.tasks
    ∧ (delete_task m task_id).1.saveCount = m.saveCount + 1 := by
  have hf : m.tasks.filter (fun t => decide (t.id ≠ task_id)) = m.tasks :=
    List.filter_eq_self.mpr (fun t ht => by simpa using habs t ht)
  have h2 : renumber (m.tasks.filter (fun t => decide (t.id ≠ task_id))) = m.tasks := by
    rw [hf, renumber_eq_self m.tasks hc]
  exact ⟨h2, rfl, h2, rfl⟩

/-- C2 witness: the amended statement at the one-task collection and the
absent identifier 5. -/
theorem delete_missing_id_witness :
    (delete_task ⟨[exTask], [exTask], 0⟩ 5).1.tasks = [exTask]
    ∧ (delete_task ⟨[exTask], [exTask], 0⟩ 5).2 = Report.success
    ∧ (delete_task ⟨[exTask], [exTask], 0⟩ 5).1.stored = [exTask]
    ∧ (delete_task ⟨[exTask], [exTask], 0⟩ 5).1.saveCount = 0 + 1 :=
  delete_missing_id ⟨[exTask], [exTask], 0⟩ 5 (by decide) (by decide)

theorem contiguous_runOps (ops : List Op) :
    ∀ m : Manager, Contiguous m.tasks → Contiguous ((runOps m ops).tasks) := by
  induction ops with
  | nil => exact fun m h => h
  | cons op rest ih =>
    intro m h
    refine ih (applyOp m op) ?_
    cases op with
    | add d c p dl => exact contiguous_append_new m.tasks _ h rfl
    | delete task_id => exact contiguous_renumber _

/-- C3: starting from a collection satisfying the identifier invariant, after
any sequence of add/delete operations the identifiers are exactly the 1-based
positions 1..N in stored order ("after each operation" is the instance of the
first conjunct at each prefix of the sequence); moreover `add` appends a task
with identifier count+1 and `delete` renumbers all surviving tasks to their
1-based positions. -/
theorem add_delete_contiguity (m : Manager) (h : Contiguous m.tasks) :
    (∀ ops : List Op, Contiguous ((runOps m ops).tasks))
    ∧ (∀ (m' : Manager) (d c p : String) (dl : Option String),
        (add_task m' d c p dl).tasks = m'.tasks ++
          [{ id := m'.tasks.length + 1, description := d, category := c,
             priority := p, deadline := dl, completed := false }])
    ∧ (∀ (m' : Manager) (task_id : Nat),
        (delete_task m' task_id).1.tasks
          = renumber (m'.tasks.filter (fun t => decide (t.id ≠ task_id)))) :=
  ⟨fun ops => contiguous_runOps ops m h, fun _ _ _ _ _ => rfl, fun _ _ => rfl⟩

/-- C3 witness: the contiguity statement instantiated at the empty
repository. -/
theorem add_delete_contiguity_witness :
    (∀ ops : List Op, Contiguous ((runOps ⟨[], [], 0⟩ ops).tasks))
    ∧ (∀ (m' : Manager) (d c p : String) (dl : Option String),
        (add_task m' d c p dl).tasks = m'.tasks ++
          [{ id := m'.tasks.length + 1, description := d, category := c,
             priority := p, deadline := dl, completed := false }])
    ∧ (∀ (m' : Manager) (task_id : Nat),
        (delete_task m' task_id).1.tasks
          = renumber (m'.tasks.filter (fun t => decide (t.id ≠ task_id)))) :=
  add_delete_contiguity ⟨[], [], 0⟩ (by decide)

theorem view_tasks_priority_eq (ts : List Task) (fb : Option String) :
    view_tasks ts fb (some "priority")
      = sortedBy (fun t => priorityRank t.priority) (view_tasks ts fb none) := rfl

theorem view_tasks_deadline_eq (ts : List Task) (fb : Option String) :
    view_tasks ts fb (some "deadline")
      = sortedBy (fun t => deadlineKey t.deadline) (view_tasks ts fb none) := rfl

/-- C4: sorting by priority yields a list sorted by the rank
High(0) < Medium(1) < Low(2), unknown priorities ranked 3; sorting by deadline
yields a list sorted by the deadline key, an absent deadline keyed by the
maximal date `"9999-12-31"` and present deadlines compared lexically as
strings; both sorts are stable (the subsequence at each key value is exactly
that of the unsorted view) and are permutations of the unsorted view; with no
sort key the tasks appear in stored order. -/
theorem view_sort_correct (ts : List Task) (fb : Option String) :
    ((view_tasks ts fb (some "priority")).Pairwise
        (fun a b => priorityRank a.priority ≤ priorityRank b.priority))
    ∧ (∀ k : Nat, (view_tasks ts fb (some "priority")).filter
          (fun t => decide (priorityRank t.priority = k))
        = (view_tasks ts fb none).filter (fun t => decide (priorityRank t.priority = k)))
    ∧ List.Perm (view_tasks ts fb (some "priority")) (view_tasks ts fb none)
    ∧ ((view_tasks ts fb (some "deadline")).Pairwise
        (fun a b => deadlineKey a.deadline ≤ deadlineKey b.deadline))
    ∧ (∀ k : String, (view_tasks ts fb (some "deadline")).filter
          (fun t => decide (deadlineKey t.deadline = k))
        = (view_tasks ts fb none).filter (fun t => decide (deadlineKey t.deadline = k)))
    ∧ List.Perm (view_tasks ts fb (some "deadline")) (view_tasks ts fb none)
    ∧ view_tasks ts none none = ts
    ∧ priorityRank "High" = 0 ∧ priorityRank "Medium" = 1 ∧ priorityRank "Low" = 2
    ∧ (∀ p : String, p ∉ (["High", "Medium", "Low"] : List String) → priorityRank p = 3)
    ∧ deadlineKey none = "9999-12-31" := by
  rw [view_tasks_priority_eq, view_tasks_deadline_eq]
  refine ⟨pairwise_sortedBy _ _, fun k => sortedBy_filter _ _ k, sortedBy_perm _ _,
    pairwise_sortedBy _ _, fun k => sortedBy_filter _ _ k, sortedBy_perm _ _,
    rfl, rfl, rfl, rfl, ?_, rfl⟩
  intro p hp
  simp only [List.mem_cons, List.not_mem_nil, or_false, not_or] at hp
  obtain ⟨h1, h2, h3⟩ := hp
  simp [priorityRank, h1, h2, h3]

/-- C5: for a (non-empty) category string `c`, listing with filter `c`
returns exactly the subsequence of tasks whose category equals `c`, by exact
equality, in their original relative order. (Python skips the filter entirely
for a falsy argument, so the empty string is excluded — it is not a category:
the category set is {Work, Personal, University}.) -/
theorem view_filter_correct (ts : List Task) (c : String) (hc : c ≠ "") :
    view_tasks ts (some c) none = ts.filter (fun t => decide (t.category = c)) := by
  simp [view_tasks, hc]

/-- C5 witness: the filter statement at a one-task collection and the
category Personal. -/
theorem view_filter_correct_witness :
    view_tasks [exTask] (some "Personal") none
      = [exTask].filter (fun t => decide (t.category = "Personal")) :=
  view_filter_correct [exTask] "Personal" (by decide)

/-- C6: `complete(identifier)` sets `completed = true` on the matching task,
saves, and reports success when a task with that identifier exists; when none
does, it reports not-found, the state is fully unchanged and `save_tasks` is
not called. -/
theorem complete_found_or_not (m : Manager) (task_id : Nat) :
    ((∃ t ∈ m.tasks, t.id = task_id) →
      (mark_task_complete m task_id).2 = Report.success
      ∧ (mark_task_complete m task_id).1.stored = (mark_task_complete m task_id).1.tasks
      ∧ (mark_task_complete m task_id).1.saveCount = m.saveCount + 1
      ∧ (∃ t ∈ (mark_task_complete m task_id).1.tasks,
          t.id = task_id ∧ t.completed = true))
    ∧ ((∀ t ∈ m.tasks, t.id ≠ task_id) →
      mark_task_complete m task_id = (m, Report.notFound)) := by
  constructor
  · intro h
    obtain ⟨pre, t, post, heq, hpre, ht⟩ := first_match_decomp m.tasks task_id h
    have hcl : completeList m.tasks task_id
        = some (pre ++ { t with completed := true } :: post) := by
      rw [heq]; exact completeList_append pre t post task_id hpre ht
    have hm : mark_task_complete m task_id
        = (save_tasks { m with tasks := pre ++ { t with completed := true } :: post },
           Report.success) := by
      simp only [mark_task_complete, hcl]
    rw [hm]
    exact ⟨rfl, rfl, rfl, { t with completed := true },
      List.mem_append.mpr (Or.inr (List.mem_cons_self _ _)), ht, rfl⟩
  · intro h
    have hcl : completeList m.tasks task_id = none :=
      (completeList_eq_none_iff m.tasks task_id).mpr h
    simp only [mark_task_complete, hcl]

/-- C7: the storage round-trip is the identity on content — serializing a
task collection and reading it back yields the identical sequence of records,
and each serialized record carries the six field names verbatim. -/
theorem storage_roundtrip (ts : List Task) :
    jsonToTasks (tasksToJson ts) = some ts
    ∧ (∀ t : Task, jsonToTask (taskToJson t) = some t)
    ∧ (∀ t : Task, jsonKeys (taskToJson t)
        = ["id", "description", "category", "priority", "deadline", "completed"]) := by
  have hone : ∀ t : Task, jsonToTask (taskToJson t) = some t := by
    intro t
    cases t with
    | mk i d c p dl b => cases dl <;> rfl
  refine ⟨?_, hone, ?_⟩
  · show jsonToTaskList (ts.map taskToJson) = some ts
    induction ts with
    | nil => rfl
    | cons t rest ih =>
      simp only [List.map_cons, jsonToTaskList, hone t, ih]
  · intro t
    cases t with
    | mk i d c p dl b => cases dl <;> rfl

/-- C8: listing/viewing, with any combination of filter and sort arguments,
leaves the repository state untouched: same in-memory tasks, same persisted
file, no call to `save_tasks`; the rendered list is built from a copy. -/
theorem view_leaves_state (m : Manager) (fb sb : Option String) :
    (view_tasks_call m fb sb).1.tasks = m.tasks
    ∧ (view_tasks_call m fb sb).1.stored = m.stored
    ∧ (view_tasks_call m fb sb).1.saveCount = m.saveCount
    ∧ (view_tasks_call m fb sb).2 = view_tasks m.tasks fb sb :=
  ⟨rfl, rfl, rfl, rfl⟩

/-- A task with no deadline, appearing first in stored order. -/
def exNoDeadline : Task :=
  { id := 1, description := "no deadline", category := "Work", priority := "High",
    deadline := none, completed := false }

/-- A task whose actual deadline is the sentinel date `"9999-12-31"`. -/
def exMaxDeadline : Task :=
  { id := 2, description := "max deadline", category := "Work", priority := "High",
    deadline := some "9999-12-31", completed := false }

/-- C9: in the by-deadline sort, the empty-string deadline and the absent
deadline are keyed identically by the sentinel `"9999-12-31"`, so a task whose
actual deadline is `"9999-12-31"` compares equal to deadline-less tasks; the
relative order of all tasks keyed at the sentinel is decided by stability, as
the two concrete two-task collections illustrate: in neither stored order does
the dated task move ahead of the deadline-less one. -/
theorem deadline_sentinel_collision :
    deadlineKey (some "") = "9999-12-31"
    ∧ deadlineKey none = "9999-12-31"
    ∧ deadlineKey (some "9999-12-31") = deadlineKey none
    ∧ (∀ ts : List Task,
        (sortedBy (fun t => deadlineKey t.deadline) ts).filter
            (fun t => decide (deadlineKey t.deadline = "9999-12-31"))
          = ts.filter (fun t => decide (deadlineKey t.deadline = "9999-12-31")))
    ∧ view_tasks [exNoDeadline, exMaxDeadline] none (some "deadline")
        = [exNoDeadline, exMaxDeadline]
    ∧ view_tasks [exMaxDeadline, exNoDeadline] none (some "deadline")
        = [exMaxDeadline, exNoDeadline] := by
  refine ⟨rfl, rfl, rfl, fun ts => sortedBy_filter _ _ _, ?_, ?_⟩ <;>
    simp [view_tasks, sortedBy, sortedInsert, deadlineKey, exNoDeadline,
      exMaxDeadline, lt_irrefl]

/-- C10: the edit and complete loops modify at most one task — the first task
in stored order whose identifier matches — and leave every other task, the
collection's length and its stored order unchanged; the completed task differs
from the original in the `completed` field alone. When no task matches,
neither loop changes anything. -/
theorem edit_complete_frame (ts : List Task) (task_id : Nat) (p : Patch) :
    (∀ pre t post, ts = pre ++ t :: post → (∀ u ∈ pre, u.id ≠ task_id) →
      t.id = task_id →
      editList ts task_id p = some (pre ++ applyPatch t p :: post)
      ∧ completeList ts task_id = some (pre ++ { t with completed := true } :: post)
      ∧ (pre ++ applyPatch t p :: post).length = ts.length
      ∧ (pre ++ ({ t with completed := true }) :: post).length = ts.length
      ∧ ({ t with completed := true }).id = t.id
      ∧ ({ t with completed := true }).description = t.description
      ∧ ({ t with completed := true }).category = t.category
      ∧ ({ t with completed := true }).priority = t.priority
      ∧ ({ t with completed := true }).deadline = t.deadline)
    ∧ ((∀ t ∈ ts, t.id ≠ task_id) →
      editList ts task_id p = none ∧ completeList ts task_id = none) := by
  constructor
  · rintro pre t post rfl hpre ht
    exact ⟨editList_append pre t post task_id p hpre ht,
      completeList_append pre t post task_id hpre ht,
      by simp, by simp, rfl, rfl, rfl, rfl, rfl⟩
  · intro h
    exact ⟨(editList_eq_none_iff ts task_id p).mpr h,
      (completeList_eq_none_iff ts task_id).mpr h⟩

end TaskFlow
